import Mathlib

/-!
Shallow embedding of the RESP codec, command dispatcher and expiring
key-value store from src/app/main.py, together with theorems checking
the natural-language specification against it.

Byte sequences are modelled as List Nat (one Nat per byte).  The asyncio
stream is modelled as the list of bytes not yet consumed: reading
returns the consumed part and the remainder.  Wall-clock instants
(time.time()) are modelled as rationals passed in explicitly.  Python
exceptions raised during decoding or dispatch are modelled with Except.
-/

abbrev Bytes := List Nat

/-- The tagged union of protocol values (the six frozen dataclasses of the
source: SimpleString, Error, Integer, BulkString, Array, Nil). -/
inductive RespValue : Type where
  | simpleString (s : Bytes)
  | error (s : Bytes)
  | integer (n : Int)
  | bulkString (s : Bytes)
  | array (vs : List RespValue)
  | nil
  deriving Repr

/-- Exceptions that can escape parse_resp_value: IncompleteReadError from
readexactly and readuntil (truncated), ValueError from int() (badInt),
ValueError from readexactly on a negative size (negativeRead),
AssertionError from the CRLF assertion (assertFailed), ValueError for an
unrecognized type prefix (badPrefix).  fuelOut is an artefact of the
fueled model and is never produced for adequate fuel. -/
inductive DecodeErr : Type where
  | truncated
  | badInt
  | negativeRead
  | assertFailed
  | badPrefix
  | fuelOut
  deriving DecidableEq, Repr

/-- Exceptions that can escape the dispatch step of handle_connection:
NotImplementedError for an unrecognized request shape (unsupported) and
ValueError from int() on the PX millisecond argument (badMs). -/
inductive DispatchErr : Type where
  | unsupported
  | badMs
  deriving DecidableEq, Repr

/-! ### Model of Python int() applied to a bytes line -/

/-- ASCII whitespace stripped by Python int() on a bytes argument. -/
def isWS (b : Nat) : Bool :=
  b == 32 || b == 9 || b == 10 || b == 13 || b == 11 || b == 12

/-- Strip leading and trailing ASCII whitespace, as Python int() does. -/
def stripWS (s : Bytes) : Bytes :=
  (((s.dropWhile isWS).reverse).dropWhile isWS).reverse

/-- Is the byte an ASCII decimal digit. -/
def isDigit (b : Nat) : Bool := 48 ≤ b && b ≤ 57

/-- Digit loop of the Python integer literal grammar: after at least one
digit has been read into acc, accept further digits, each optionally
preceded by a single underscore. -/
def udGo : Nat → Bytes → Option Nat
  | acc, [] => some acc
  | acc, b :: rest =>
    if b = 95 then
      match rest with
      | [] => none
      | b2 :: rest2 =>
        if isDigit b2 then udGo (acc * 10 + (b2 - 48)) rest2 else none
    else if isDigit b then udGo (acc * 10 + (b - 48)) rest
    else none

/-- Unsigned part of the Python integer literal grammar: one digit, then
digits optionally separated by single underscores. -/
def parseUDigits : Bytes → Option Nat
  | [] => none
  | b :: rest => if isDigit b then udGo (b - 48) rest else none

/-- Sign-and-digits part of the Python integer literal grammar, applied
after whitespace stripping: at most one leading sign, then digits. -/
def pyIntCore : Bytes → Option Int
  | [] => none
  | b :: rest =>
    if b = 43 then (parseUDigits rest).map (fun n => (n : Int))
    else if b = 45 then (parseUDigits rest).map (fun n => -(n : Int))
    else (parseUDigits (b :: rest)).map (fun n => (n : Int))

/-- Model of Python int() on a bytes value: strip ASCII whitespace, allow
one optional sign, then an underscore-separated digit string.  Returns
none where Python raises ValueError. -/
def pyInt (s : Bytes) : Option Int :=
  pyIntCore (stripWS s)

/-! ### Model of Python str() on an integer -/

/-- Decimal digits of a natural number, most significant first; fuel is
an upper bound on the number (any fuel above the argument is enough). -/
def natToDecAux : Nat → Nat → Bytes
  | 0, _ => []
  | fuel + 1, n =>
    if n < 10 then [n + 48]
    else natToDecAux fuel (n / 10) ++ [n % 10 + 48]

/-- Model of Python str() on a non-negative int, as bytes. -/
def natToDec (n : Nat) : Bytes := natToDecAux (n + 1) n

/-- Model of Python str() on an int, as bytes: a leading minus sign for
negative values, decimal digits with no leading zeros. -/
def intToDec (i : Int) : Bytes :=
  if i < 0 then 45 :: natToDec i.natAbs else natToDec i.toNat

/-! ### The RESP encoder (the encode methods of the six dataclasses) -/

mutual

/-- encode() of each Value variant, translated method by method from the
source dataclasses. -/
def encodeV : RespValue → Bytes
  | .simpleString s => 43 :: (s ++ [13, 10])
  | .error s => 45 :: (s ++ [13, 10])
  | .integer n => 58 :: (intToDec n ++ [13, 10])
  | .bulkString s => 36 :: (natToDec s.length ++ [13, 10] ++ s ++ [13, 10])
  | .array vs => 42 :: (natToDec vs.length ++ [13, 10] ++ encodeL vs)
  | .nil => [36, 45, 49, 13, 10]

/-- The element loop of Array.encode: concatenation of the encodings of
the elements in order. -/
def encodeL : List RespValue → Bytes
  | [] => []
  | v :: vs => encodeV v ++ encodeL vs

end

/-! ### Well-formedness and height of a value -/

mutual

/-- Constructibility precondition used by the round-trip claim: the
payloads of SimpleString and Error contain no CR and no LF byte,
recursively through Arrays. -/
def wfV : RespValue → Bool
  | .simpleString s => s.all (fun b => !(b == 13) && !(b == 10))
  | .error s => s.all (fun b => !(b == 13) && !(b == 10))
  | .integer _ => true
  | .bulkString _ => true
  | .array vs => wfL vs
  | .nil => true

/-- wfV lifted to a list of values. -/
def wfL : List RespValue → Bool
  | [] => true
  | v :: vs => wfV v && wfL vs

end

/-- Value denoted by a big-endian string of ASCII digit bytes. -/
def decVal (ds : Bytes) : Nat :=
  ds.foldl (fun a b => a * 10 + (b - 48)) 0

/-! ### Stream reading primitives -/

/-- Model of read_until_clrf: StreamReader.readuntil with separator CRLF
followed by dropping the separator.  Returns the bytes before the first
CRLF and the bytes after it; IncompleteReadError (truncated) when no
CRLF occurs in the stream. -/
def readUntilCRLF : Bytes → Except DecodeErr (Bytes × Bytes)
  | [] => .error .truncated
  | [_] => .error .truncated
  | b :: b2 :: r =>
    if b = 13 ∧ b2 = 10 then .ok ([], r)
    else
      match readUntilCRLF (b2 :: r) with
      | .ok (line, rest) => .ok (b :: line, rest)
      | .error e => .error e

/-- Model of StreamReader.readexactly n: ValueError on negative n,
IncompleteReadError when fewer than n bytes remain, otherwise the first
n bytes and the remainder. -/
def readExactly (n : Int) (s : Bytes) : Except DecodeErr (Bytes × Bytes) :=
  if n < 0 then .error .negativeRead
  else if s.length < n.toNat then .error .truncated
  else .ok (s.take n.toNat, s.drop n.toNat)

/-! ### The RESP decoder (parse_resp_value) -/

/-- The list comprehension of the Array branch: run the parse function P
the given number of times, threading the unconsumed stream. -/
def parseManyF (P : Bytes → Except DecodeErr (RespValue × Bytes)) :
    Nat → Bytes → Except DecodeErr (List RespValue × Bytes)
  | 0, s => .ok ([], s)
  | n + 1, s =>
    match P s with
    | .error e => .error e
    | .ok (v, s1) =>
      match parseManyF P n s1 with
      | .error e => .error e
      | .ok (vs, s2) => .ok (v :: vs, s2)

/-- One unfolding of parse_resp_value, with P standing for the recursive
call: read one prefix byte, branch on it exactly as the source match
statement does.  In the Array branch the count is int(line) and the
iteration count is range(int(line)), which for a negative count is
empty; Int.toNat models that.  In the BulkString branch value[-2:] and
value[:-2] are modelled with drop and take on length - 2. -/
def parseStep (P : Bytes → Except DecodeErr (RespValue × Bytes))
    (input : Bytes) : Except DecodeErr (RespValue × Bytes) :=
  match input with
  | [] => .error .truncated
  | b :: s =>
    if b = 43 then
      match readUntilCRLF s with
      | .error e => .error e
      | .ok (line, rest) => .ok (.simpleString line, rest)
    else if b = 45 then
      match readUntilCRLF s with
      | .error e => .error e
      | .ok (line, rest) => .ok (.error line, rest)
    else if b = 58 then
      match readUntilCRLF s with
      | .error e => .error e
      | .ok (line, rest) =>
        match pyInt line with
        | none => .error .badInt
        | some n => .ok (.integer n, rest)
    else if b = 36 then
      match readUntilCRLF s with
      | .error e => .error e
      | .ok (line, rest) =>
        match pyInt line with
        | none => .error .badInt
        | some n =>
          if n = -1 then .ok (.nil, rest)
          else
            match readExactly (n + 2) rest with
            | .error e => .error e
            | .ok (value, rest2) =>
              if value.drop (value.length - 2) = [13, 10] then
                .ok (.bulkString (value.take (value.length - 2)), rest2)
              else .error .assertFailed
    else if b = 42 then
      match readUntilCRLF s with
      | .error e => .error e
      | .ok (line, rest) =>
        match pyInt line with
        | none => .error .badInt
        | some n =>
          match parseManyF P n.toNat rest with
          | .error e => .error e
          | .ok (vs, rest2) => .ok (.array vs, rest2)
    else .error .badPrefix

/-- Fueled fixpoint of parseStep, written with the bare Nat recursor so
that applications at literal fuel reduce definitionally. -/
def parseVal : Nat → Bytes → Except DecodeErr (RespValue × Bytes) :=
  fun fuel =>
    @Nat.rec (fun _ => Bytes → Except DecodeErr (RespValue × Bytes))
      (fun _ => .error .fuelOut)
      (fun _ ih => parseStep ih)
      fuel

/-- parse_resp_value on a finite stream: every recursive call consumes at
least one byte, so fuel one more than the stream length is always
adequate. -/
def decodeValue (s : Bytes) : Except DecodeErr (RespValue × Bytes) :=
  parseVal (s.length + 1) s

/-! ### The key-value store (the global dict named state) -/

/-- The store: binary key to (binary value, optional absolute expiry
instant in seconds).  Association list with unique keys, standing for
the Python dict. -/
abbrev Store := List (Bytes × (Bytes × Option ℚ))

/-- dict.get. -/
def storeGet : Store → Bytes → Option (Bytes × Option ℚ)
  | [], _ => none
  | (k1, e) :: s, k => if k1 = k then some e else storeGet s k

/-- del on the dict (keys are unique, so removing the first match is
removing the key). -/
def storeDel : Store → Bytes → Store
  | [], _ => []
  | (k1, e) :: s, k => if k1 = k then s else (k1, e) :: storeDel s k

/-- dict item assignment: insert or overwrite the entry for the key. -/
def storeSet (k : Bytes) (e : Bytes × Option ℚ) (st : Store) : Store :=
  (k, e) :: storeDel st k

/-! ### The command dispatcher (the match statement of handle_connection) -/

def pingBytes : Bytes := [112, 105, 110, 103]
def echoBytes : Bytes := [101, 99, 104, 111]
def setBytes : Bytes := [115, 101, 116]
def getBytes : Bytes := [103, 101, 116]
def pxBytes : Bytes := [112, 120]
def pongBytes : Bytes := [80, 79, 78, 71]
def okBytes : Bytes := [79, 75]

/-- One dispatch step of handle_connection at wall-clock instant now:
match the decoded request against the case patterns of the source, in
source order, consulting and mutating the store and producing either a
reply value or the exception the source would raise.  The PX branch
evaluates int(expiry_ms_bytes) before the store assignment, as the
source expression does, so a ValueError leaves the store untouched. -/
def dispatch (now : ℚ) (st : Store) (req : RespValue) :
    Store × Except DispatchErr RespValue :=
  match req with
  | .array [.bulkString c] =>
    if c = pingBytes then (st, .ok (.simpleString pongBytes))
    else (st, .error .unsupported)
  | .array [.bulkString c, .bulkString m] =>
    if c = pingBytes then (st, .ok (.bulkString m))
    else if c = echoBytes then (st, .ok (.bulkString m))
    else if c = getBytes then
      match storeGet st m with
      | none => (st, .ok .nil)
      | some (v, expiry) =>
        match expiry with
        | some e =>
          if now > e then (storeDel st m, .ok .nil)
          else (st, .ok (.bulkString v))
        | none => (st, .ok (.bulkString v))
    else (st, .error .unsupported)
  | .array [.bulkString c, .bulkString k, .bulkString v] =>
    if c = setBytes then
      (storeSet k (v, none) st, .ok (.simpleString okBytes))
    else (st, .error .unsupported)
  | .array [.bulkString c, .bulkString k, .bulkString v,
            .bulkString p, .bulkString ms] =>
    if c = setBytes ∧ p = pxBytes then
      match pyInt ms with
      | none => (st, .error .badMs)
      | some n =>
        (storeSet k (v, some (now + (n : ℚ) / 1000)) st,
         .ok (.simpleString okBytes))
    else (st, .error .unsupported)
  | _ => (st, .error .unsupported)

/-- Errors of one decode-dispatch cycle. -/
inductive StepErr : Type where
  | decode (e : DecodeErr)
  | dispatch (e : DispatchErr)
  deriving DecidableEq, Repr

/-- One iteration of the handle_connection loop: decode one value from
the stream, dispatch it against the store, return the new store together
with the reply and the unconsumed stream, or the exception. -/
def serverStep (now : ℚ) (st : Store) (input : Bytes) :
    Store × Except StepErr (RespValue × Bytes) :=
  match decodeValue input with
  | .error e => (st, .error (.decode e))
  | .ok (v, rest) =>
    match dispatch now st v with
    | (st2, .ok reply) => (st2, .ok (reply, rest))
    | (st2, .error e) => (st2, .error (.dispatch e))

/-! ## Lemmas about the integer rendering and parsing models -/

theorem udGo_digits (ds : Bytes) : ∀ acc, (∀ b ∈ ds, isDigit b = true) →
    udGo acc ds = some (ds.foldl (fun a b => a * 10 + (b - 48)) acc) := by
  induction ds with
  | nil => intro acc _; rfl
  | cons b rest ih =>
    intro acc h
    have hb : isDigit b = true := h b (by simp)
    have hb2 : 48 ≤ b ∧ b ≤ 57 := by
      simpa [isDigit, decide_eq_true_eq] using hb
    have hne : ¬ b = 95 := by omega
    have h2 := ih (acc * 10 + (b - 48)) (fun x hx => h x (by simp [hx]))
    cases rest with
    | nil => simp [udGo, hne, hb]
    | cons b2 rest2 =>
      simp only [udGo, List.foldl_cons]
      rw [if_neg hne, hb]
      simpa using h2

theorem parseUDigits_digits (ds : Bytes) (hne : ds ≠ [])
    (h : ∀ b ∈ ds, isDigit b = true) :
    parseUDigits ds = some (decVal ds) := by
  cases ds with
  | nil => exact absurd rfl hne
  | cons b rest =>
    have hb : isDigit b = true := h b (by simp)
    simp only [parseUDigits, hb, if_pos rfl]
    rw [udGo_digits rest (b - 48) (fun x hx => h x (by simp [hx]))]
    simp [decVal]

theorem decVal_append_digit (xs : Bytes) (d : Nat) :
    decVal (xs ++ [d]) = decVal xs * 10 + (d - 48) := by
  simp [decVal, List.foldl_append]

theorem natToDecAux_spec : ∀ fuel n, n < fuel →
    (∀ b ∈ natToDecAux fuel n, 48 ≤ b ∧ b ≤ 57) ∧
    natToDecAux fuel n ≠ [] ∧ decVal (natToDecAux fuel n) = n := by
  intro fuel
  induction fuel with
  | zero => intro n h; omega
  | succ fuel ih =>
    intro n h
    by_cases h10 : n < 10
    · refine ⟨?_, ?_, ?_⟩ <;> simp [natToDecAux, h10, decVal] <;> omega
    · have hdiv : n / 10 < fuel := by
        have h1 : n / 10 < n := Nat.div_lt_self (by omega) (by omega)
        omega
      obtain ⟨hall, hne, hval⟩ := ih (n / 10) hdiv
      refine ⟨?_, ?_, ?_⟩
      · intro b hb
        simp only [natToDecAux, if_neg h10, List.mem_append, List.mem_singleton] at hb
        rcases hb with hb | hb
        · exact hall b hb
        · have : n % 10 < 10 := Nat.mod_lt _ (by omega)
          omega
      · simp [natToDecAux, h10]
      · simp only [natToDecAux, if_neg h10]
        rw [decVal_append_digit, hval]
        omega

theorem natToDec_spec (n : Nat) :
    (∀ b ∈ natToDec n, 48 ≤ b ∧ b ≤ 57) ∧
    natToDec n ≠ [] ∧ decVal (natToDec n) = n :=
  natToDecAux_spec (n + 1) n (Nat.lt_succ_self n)

theorem digit_not_ws {b : Nat} (h : 48 ≤ b ∧ b ≤ 57) : isWS b = false := by
  simp only [isWS, Bool.or_eq_false_iff, beq_eq_false_iff_ne, ne_eq]
  omega

theorem dropWhile_isWS_of_none {l : Bytes} (h : ∀ b ∈ l, isWS b = false) :
    l.dropWhile isWS = l := by
  cases l with
  | nil => rfl
  | cons b rest => simp [List.dropWhile, h b (by simp)]

theorem stripWS_of_none {l : Bytes} (h : ∀ b ∈ l, isWS b = false) :
    stripWS l = l := by
  unfold stripWS
  rw [dropWhile_isWS_of_none h,
    dropWhile_isWS_of_none (fun b hb => h b (List.mem_reverse.mp hb)),
    List.reverse_reverse]

theorem pyInt_natToDec (n : Nat) : pyInt (natToDec n) = some (n : Int) := by
  obtain ⟨hall, hne, hval⟩ := natToDec_spec n
  have hstrip : stripWS (natToDec n) = natToDec n :=
    stripWS_of_none (fun b hb => digit_not_ws (hall b hb))
  have hud : parseUDigits (natToDec n) = some (decVal (natToDec n)) :=
    parseUDigits_digits _ hne
      (fun b hb => by simp [isDigit, decide_eq_true_eq]; exact hall b hb)
  unfold pyInt
  rw [hstrip]
  cases hd : natToDec n with
  | nil => exact absurd hd hne
  | cons b rest =>
    have hb : 48 ≤ b ∧ b ≤ 57 := hall b (by rw [hd]; simp)
    rw [pyIntCore, if_neg (by omega : ¬ b = 43), if_neg (by omega : ¬ b = 45)]
    rw [← hd, hud, hval]
    rfl

theorem pyInt_intToDec (i : Int) : pyInt (intToDec i) = some i := by
  by_cases hneg : i < 0
  · obtain ⟨hall, hne, hval⟩ := natToDec_spec i.natAbs
    unfold intToDec
    rw [if_pos hneg]
    have hstrip : stripWS (45 :: natToDec i.natAbs) = 45 :: natToDec i.natAbs := by
      refine stripWS_of_none ?_
      intro b hb
      rcases List.mem_cons.mp hb with hb | hb
      · subst hb; rfl
      · exact digit_not_ws (hall b hb)
    have hud : parseUDigits (natToDec i.natAbs) = some (decVal (natToDec i.natAbs)) :=
      parseUDigits_digits _ hne
        (fun b hb => by simp [isDigit, decide_eq_true_eq]; exact hall b hb)
    unfold pyInt
    rw [hstrip]
    rw [pyIntCore, if_neg (by omega : ¬ (45 : Nat) = 43), if_pos rfl, hud, hval]
    show some (-(i.natAbs : Int)) = some i
    congr 1
    omega
  · unfold intToDec
    rw [if_neg hneg]
    rw [pyInt_natToDec]
    congr 1
    omega

theorem natToDec_no_crlf (n : Nat) : ∀ b ∈ natToDec n, b ≠ 13 ∧ b ≠ 10 := by
  intro b hb
  have := (natToDec_spec n).1 b hb
  omega

theorem intToDec_no_crlf (i : Int) : ∀ b ∈ intToDec i, b ≠ 13 ∧ b ≠ 10 := by
  intro b hb
  unfold intToDec at hb
  by_cases hneg : i < 0
  · rw [if_pos hneg] at hb
    rcases List.mem_cons.mp hb with hb | hb
    · omega
    · have := (natToDec_spec i.natAbs).1 b hb
      omega
  · rw [if_neg hneg] at hb
    have := (natToDec_spec i.toNat).1 b hb
    omega

/-! ## Lemmas about the stream primitives and the decoder -/

theorem readUntilCRLF_append (s rest : Bytes) (h : ∀ b ∈ s, b ≠ 13) :
    readUntilCRLF (s ++ 13 :: 10 :: rest) = .ok (s, rest) := by
  induction s with
  | nil => simp [readUntilCRLF]
  | cons a s ih =>
    have ha : a ≠ 13 := h a (by simp)
    have hs : ∀ b ∈ s, b ≠ 13 := fun b hb => h b (by simp [hb])
    cases s with
    | nil => simp [readUntilCRLF, ha]
    | cons c s2 =>
      have := ih hs
      simp only [List.cons_append] at this ⊢
      rw [readUntilCRLF, if_neg (by simp [ha])]
      rw [this]

theorem parseVal_zero (s : Bytes) : parseVal 0 s = .error .fuelOut := rfl

theorem parseVal_succ (fuel : Nat) (s : Bytes) :
    parseVal (fuel + 1) s = parseStep (parseVal fuel) s := rfl

theorem encodeV_ne_nil (v : RespValue) : 1 ≤ (encodeV v).length := by
  cases v <;> simp [encodeV]

theorem encodeL_length_le (vs : List RespValue) :
    (encodeL vs).length + 4 ≤ (encodeV (.array vs)).length := by
  have h1 := (natToDec_spec vs.length).2.1
  have h2 : 1 ≤ (natToDec vs.length).length := by
    cases hd : natToDec vs.length with
    | nil => exact absurd hd h1
    | cons b rest => simp
  simp only [encodeV, List.length_cons, List.length_append]
  omega

/-- Parsing inverts encoding for every element of a list in turn, given
that the parse function inverts encoding for single values. -/
theorem parseManyF_encodeL (P : Bytes → Except DecodeErr (RespValue × Bytes))
    (hp : ∀ v rest, wfV v = true → (encodeV v).length ≤ fuel →
      P (encodeV v ++ rest) = .ok (v, rest)) :
    ∀ vs rest, wfL vs = true → (encodeL vs).length ≤ fuel →
      parseManyF P vs.length (encodeL vs ++ rest) = .ok (vs, rest) := by
  intro vs
  induction vs with
  | nil => intro rest _ _; simp [parseManyF, encodeL]
  | cons v vs ih =>
    intro rest hwf hlen
    have hwfv : wfV v = true ∧ wfL vs = true := by
      simpa [wfL, Bool.and_eq_true] using hwf
    have hlenv : (encodeV v).length ≤ fuel ∧ (encodeL vs).length ≤ fuel := by
      have : (encodeL (v :: vs)).length = (encodeV v).length + (encodeL vs).length := by
        simp [encodeL]
      omega
    simp only [List.length_cons, encodeL, List.append_assoc]
    rw [parseManyF]
    rw [hp v (encodeL vs ++ rest) hwfv.1 hlenv.1]
    simp [ih rest hwfv.2 hlenv.2]

theorem no_cr_of_all (s : Bytes)
    (h : s.all (fun b => !(b == 13) && !(b == 10)) = true) : ∀ b ∈ s, b ≠ 13 := by
  intro b hb
  have := List.all_eq_true.mp h b hb
  simp only [Bool.and_eq_true, Bool.not_eq_true', beq_eq_false_iff_ne, ne_eq] at this
  exact this.1

/-- Parsing inverts encoding: with fuel at least the encoded length, the
decoder consumes exactly the encoding of a well-formed value and returns
that value. -/
theorem parseVal_encodeV (fuel : Nat) :
    ∀ v rest, wfV v = true → (encodeV v).length ≤ fuel →
      parseVal fuel (encodeV v ++ rest) = .ok (v, rest) := by
  induction fuel with
  | zero =>
    intro v rest _ hlen
    have := encodeV_ne_nil v
    omega
  | succ fuel ih =>
    intro v rest hwf hlen
    rw [parseVal_succ]
    cases v with
    | simpleString s =>
      have hs : ∀ b ∈ s, b ≠ 13 := no_cr_of_all s (by simpa [wfV] using hwf)
      simp only [encodeV, List.cons_append, List.append_assoc, List.nil_append]
      rw [parseStep, if_pos rfl]
      rw [readUntilCRLF_append _ _ hs]
    | error s =>
      have hs : ∀ b ∈ s, b ≠ 13 := no_cr_of_all s (by simpa [wfV] using hwf)
      simp only [encodeV, List.cons_append, List.append_assoc, List.nil_append]
      rw [parseStep, if_neg (by omega : ¬ (45 : Nat) = 43), if_pos rfl]
      rw [readUntilCRLF_append _ _ hs]
    | integer n =>
      have hs : ∀ b ∈ intToDec n, b ≠ 13 := fun b hb => (intToDec_no_crlf n b hb).1
      simp only [encodeV, List.cons_append, List.append_assoc, List.nil_append]
      rw [parseStep, if_neg (by omega : ¬ (58 : Nat) = 43),
        if_neg (by omega : ¬ (58 : Nat) = 45), if_pos rfl]
      rw [readUntilCRLF_append _ _ hs]
      simp [pyInt_intToDec]
    | bulkString s =>
      have hs : ∀ b ∈ natToDec s.length, b ≠ 13 :=
        fun b hb => (natToDec_no_crlf s.length b hb).1
      simp only [encodeV, List.cons_append, List.append_assoc, List.nil_append]
      rw [parseStep, if_neg (by omega : ¬ (36 : Nat) = 43),
        if_neg (by omega : ¬ (36 : Nat) = 45), if_neg (by omega : ¬ (36 : Nat) = 58),
        if_pos rfl]
      rw [readUntilCRLF_append _ _ hs]
      simp only [pyInt_natToDec]
      rw [if_neg (by omega : ¬ ((s.length : Int)) = -1)]
      have hsplit : s ++ 13 :: 10 :: rest = (s ++ [13, 10]) ++ rest := by simp
      have hlen2 : (s ++ [13, 10]).length = s.length + 2 := by simp
      have htn : (((s.length : Int)) + 2).toNat = s.length + 2 := by omega
      rw [hsplit, readExactly, if_neg (by omega : ¬ ((s.length : Int)) + 2 < 0), htn]
      rw [if_neg (by simp)]
      rw [List.take_left' hlen2, List.drop_left' hlen2]
      simp only [hlen2, Nat.add_sub_cancel]
      rw [List.drop_left' rfl, if_pos rfl, List.take_left' rfl]
    | nil =>
      have hs : ∀ b ∈ [45, 49], b ≠ 13 := by decide
      have hshape : encodeV .nil ++ rest = 36 :: ([45, 49] ++ 13 :: 10 :: rest) := by
        simp [encodeV]
      rw [hshape]
      rw [parseStep, if_neg (by omega : ¬ (36 : Nat) = 43),
        if_neg (by omega : ¬ (36 : Nat) = 45), if_neg (by omega : ¬ (36 : Nat) = 58),
        if_pos rfl]
      rw [readUntilCRLF_append _ _ hs]
      have hpy : pyInt [45, 49] = some (-1) := rfl
      simp [hpy]
    | array vs =>
      have hwf2 : wfL vs = true := by simpa [wfV] using hwf
      have hs : ∀ b ∈ natToDec vs.length, b ≠ 13 :=
        fun b hb => (natToDec_no_crlf vs.length b hb).1
      have hlen2 : (encodeL vs).length ≤ fuel := by
        have := encodeL_length_le vs
        omega
      simp only [encodeV, List.cons_append, List.append_assoc, List.nil_append]
      rw [parseStep, if_neg (by omega : ¬ (42 : Nat) = 43),
        if_neg (by omega : ¬ (42 : Nat) = 45), if_neg (by omega : ¬ (42 : Nat) = 58),
        if_neg (by omega : ¬ (42 : Nat) = 36), if_pos rfl]
      rw [readUntilCRLF_append _ _ hs]
      simp only [pyInt_natToDec]
      have htn : ((vs.length : Int)).toNat = vs.length := by omega
      rw [htn]
      rw [parseManyF_encodeL (parseVal fuel) (fun v r h1 h2 => ih v r h1 h2) vs rest
        hwf2 hlen2]

/-! ## Claim theorems -/

/-- Claim C1: for every constructible Value whose SimpleString and Error
payloads contain no CR or LF bytes, decoding the byte sequence produced
by encoding it yields a structurally equal value (recursively through
Arrays, including empty and deeply nested ones, and Nil), consuming the
whole encoding; BulkString payloads may contain any bytes, CR and LF
included, because the body is length-prefixed. -/
theorem c1_encode_decode_roundtrip (v : RespValue) (h : wfV v = true) :
    decodeValue (encodeV v) = .ok (v, []) := by
  have h2 := parseVal_encodeV ((encodeV v).length + 1) v [] h (by omega)
  rw [List.append_nil] at h2
  exact h2

/-- Witness for C1 at a concrete value exercising all six variants, an
empty Array, nesting of depth three and a BulkString payload containing
CR and LF bytes. -/
theorem c1_encode_decode_roundtrip_witness :
    wfV (.array [.array [.array [.bulkString [13, 10, 0], .integer (-12)],
        .simpleString [79, 75]], .error [69, 82, 82], .nil, .array []]) = true ∧
    decodeValue (encodeV (.array [.array [.array [.bulkString [13, 10, 0],
        .integer (-12)], .simpleString [79, 75]], .error [69, 82, 82], .nil,
        .array []])) =
      .ok (.array [.array [.array [.bulkString [13, 10, 0], .integer (-12)],
        .simpleString [79, 75]], .error [69, 82, 82], .nil, .array []], []) :=
  ⟨by decide, c1_encode_decode_roundtrip _ (by decide)⟩

/-- Claim C7: Nil.encode always returns exactly the five bytes of the
literal bytestring dollar minus one CRLF, and decoding those five bytes
yields Nil with nothing left over. -/
theorem c7_nil_encoding :
    encodeV .nil = [36, 45, 49, 13, 10] ∧
    decodeValue [36, 45, 49, 13, 10] = .ok (.nil, []) :=
  ⟨rfl, rfl⟩

/-- Claim C10: the integer-line parsing of the decoder (Integer payload,
BulkString length and Array count) accepts a leading plus sign, leading
zeros and surrounding ASCII whitespace, decoding such inputs to the same
value as their canonical form instead of rejecting them. -/
theorem c10_permissive_integer_lines :
    decodeValue [58, 43, 48, 55, 13, 10] = .ok (.integer 7, []) ∧
    decodeValue [58, 32, 55, 32, 13, 10] = .ok (.integer 7, []) ∧
    decodeValue [58, 55, 13, 10] = .ok (.integer 7, []) ∧
    decodeValue [36, 43, 48, 51, 13, 10, 97, 98, 99, 13, 10] =
      .ok (.bulkString [97, 98, 99], []) ∧
    decodeValue [42, 32, 49, 32, 13, 10, 58, 55, 13, 10] =
      .ok (.array [.integer 7], []) :=
  ⟨rfl, rfl, rfl, rfl, rfl⟩

/-- Claim C3 is corrected: decoding an Array whose count line parses to a
negative integer does NOT raise an error; range over a negative count is
empty, so the input star minus one CRLF decodes to an empty Array with
the whole input consumed. -/
theorem c3_negative_count_counterexample :
    decodeValue [42, 45, 49, 13, 10] = .ok (.array [], []) := rfl

/-- Claim C3 as amended: for a star-prefixed value the count line is
parsed with Python int; a count of zero OR NEGATIVE yields an empty
Array (the source iterates range of the count, which is empty for any
non-positive count, and performs no sign check), and for a positive
count n the decoder recursively decodes exactly n values in order,
collecting them into the Array. -/
theorem c3_array_count (line rest : Bytes) (n : Int) (fuel : Nat)
    (vs : List RespValue)
    (hline : ∀ b ∈ line, b ≠ 13) (hn : pyInt line = some n) :
    (n ≤ 0 →
      parseVal (fuel + 1) (42 :: (line ++ 13 :: 10 :: rest)) =
        .ok (.array [], rest)) ∧
    (n = vs.length → wfL vs = true → (encodeL vs).length ≤ fuel →
      parseVal (fuel + 1) (42 :: (line ++ 13 :: 10 :: (encodeL vs ++ rest))) =
        .ok (.array vs, rest)) := by
  constructor
  · intro hneg
    rw [parseVal_succ, parseStep, if_neg (by omega : ¬ (42 : Nat) = 43),
      if_neg (by omega : ¬ (42 : Nat) = 45), if_neg (by omega : ¬ (42 : Nat) = 58),
      if_neg (by omega : ¬ (42 : Nat) = 36), if_pos rfl]
    rw [readUntilCRLF_append _ _ hline]
    simp only [hn]
    have htn : n.toNat = 0 := by omega
    rw [htn]
    simp [parseManyF]
  · intro hv hwf hlen
    rw [parseVal_succ, parseStep, if_neg (by omega : ¬ (42 : Nat) = 43),
      if_neg (by omega : ¬ (42 : Nat) = 45), if_neg (by omega : ¬ (42 : Nat) = 58),
      if_neg (by omega : ¬ (42 : Nat) = 36), if_pos rfl]
    rw [readUntilCRLF_append _ _ hline]
    simp only [hn]
    have htn : n.toNat = vs.length := by subst hv; omega
    rw [htn]
    rw [parseManyF_encodeL (parseVal fuel)
      (fun v r h1 h2 => parseVal_encodeV fuel v r h1 h2) vs rest hwf hlen]

/-- Witness for the amended C3 at the concrete count line minus one with
an empty remainder: the decode succeeds with an empty Array. -/
theorem c3_array_count_witness :
    (∀ b ∈ ([45, 49] : Bytes), b ≠ 13) ∧ pyInt [45, 49] = some (-1) ∧
    ((-1 : Int) ≤ 0) ∧
    parseVal 1 (42 :: ([45, 49] ++ 13 :: 10 :: [])) = .ok (.array [], []) :=
  ⟨by decide, rfl, by decide,
    (c3_array_count [45, 49] [] (-1) 0 [] (by decide) rfl).1 (by decide)⟩

/-- Claim C6: for a dollar-prefixed value, a parsed length of minus one
produces Nil reading no body bytes; any other negative length raises a
decode error (the source raises through the CRLF assertion for minus two
and through readexactly for anything smaller); a non-negative length n
reads exactly n plus two bytes, raises an error when the final two of
them are not CRLF, and otherwise returns a BulkString of the first n
bytes. -/
theorem c6_bulk_length (line rest : Bytes) (n : Int) (fuel : Nat)
    (hline : ∀ b ∈ line, b ≠ 13) (hn : pyInt line = some n) :
    (n = -1 →
      parseVal (fuel + 1) (36 :: (line ++ 13 :: 10 :: rest)) = .ok (.nil, rest)) ∧
    (n < -1 →
      ∃ e, parseVal (fuel + 1) (36 :: (line ++ 13 :: 10 :: rest)) = .error e) ∧
    (∀ body rest2, n = body.length →
      parseVal (fuel + 1) (36 :: (line ++ 13 :: 10 :: (body ++ 13 :: 10 :: rest2))) =
        .ok (.bulkString body, rest2)) ∧
    (∀ body x y rest2, n = body.length → ¬(x = 13 ∧ y = 10) →
      parseVal (fuel + 1) (36 :: (line ++ 13 :: 10 :: (body ++ x :: y :: rest2))) =
        .error .assertFailed) := by
  have hstep : ∀ r : Bytes,
      parseVal (fuel + 1) (36 :: (line ++ 13 :: 10 :: r)) =
        (if n = -1 then .ok (.nil, r)
         else
          match readExactly (n + 2) r with
          | .error e => .error e
          | .ok (value, rest2) =>
            if value.drop (value.length - 2) = [13, 10] then
              .ok (.bulkString (value.take (value.length - 2)), rest2)
            else .error .assertFailed) := by
    intro r
    rw [parseVal_succ, parseStep, if_neg (by omega : ¬ (36 : Nat) = 43),
      if_neg (by omega : ¬ (36 : Nat) = 45), if_neg (by omega : ¬ (36 : Nat) = 58),
      if_pos rfl]
    rw [readUntilCRLF_append _ _ hline]
    simp only [hn]
  refine ⟨?_, ?_, ?_, ?_⟩
  · intro h1
    rw [hstep rest, if_pos h1]
  · intro h1
    rw [hstep rest, if_neg (by omega : ¬ n = -1)]
    by_cases h2 : n = -2
    · refine ⟨.assertFailed, ?_⟩
      subst h2
      rw [show (-2 : Int) + 2 = 0 by norm_num]
      rw [readExactly, if_neg (by omega : ¬ (0 : Int) < 0),
        if_neg (by simp : ¬ rest.length < (0 : Int).toNat)]
      simp
    · refine ⟨.negativeRead, ?_⟩
      rw [readExactly, if_pos (by omega : n + 2 < 0)]
  · intro body rest2 hlen
    rw [hstep (body ++ 13 :: 10 :: rest2), if_neg (by omega : ¬ n = -1)]
    have hsplit : body ++ 13 :: 10 :: rest2 = (body ++ [13, 10]) ++ rest2 := by simp
    have hlen2 : (body ++ [13, 10]).length = body.length + 2 := by simp
    have htn : (n + 2).toNat = body.length + 2 := by omega
    rw [hsplit, readExactly, if_neg (by omega : ¬ n + 2 < 0), htn]
    rw [if_neg (by simp)]
    rw [List.take_left' hlen2, List.drop_left' hlen2]
    simp only [hlen2, Nat.add_sub_cancel]
    rw [List.drop_left' rfl, if_pos rfl, List.take_left' rfl]
  · intro body x y rest2 hlen hxy
    rw [hstep (body ++ x :: y :: rest2), if_neg (by omega : ¬ n = -1)]
    have hsplit : body ++ x :: y :: rest2 = (body ++ [x, y]) ++ rest2 := by simp
    have hlen2 : (body ++ [x, y]).length = body.length + 2 := by simp
    have htn : (n + 2).toNat = body.length + 2 := by omega
    rw [hsplit, readExactly, if_neg (by omega : ¬ n + 2 < 0), htn]
    rw [if_neg (by simp)]
    rw [List.take_left' hlen2]
    simp only [hlen2, Nat.add_sub_cancel]
    rw [List.drop_left' rfl]
    rw [if_neg (by simpa using hxy)]

/-- Witness for C6 at the concrete length line three and the body abc
followed by CRLF: a BulkString of the three body bytes is returned. -/
theorem c6_bulk_length_witness :
    (∀ b ∈ ([51] : Bytes), b ≠ 13) ∧ pyInt [51] = some 3 ∧
    ((3 : Int) = (([97, 98, 99] : Bytes)).length) ∧
    parseVal 1 (36 :: ([51] ++ 13 :: 10 :: ([97, 98, 99] ++ 13 :: 10 :: []))) =
      .ok (.bulkString [97, 98, 99], []) :=
  ⟨by decide, rfl, by decide,
    (c6_bulk_length [51] [] 3 0 (by decide) rfl).2.2.1 [97, 98, 99] [] (by decide)⟩

/-- Claim C2 is corrected: the dispatcher does NOT match the command
name case-insensitively; the one-element request whose BulkString is
uppercase PING falls through every case pattern and raises the
unsupported-command exception instead of replying PONG. -/
theorem c2_uppercase_ping_counterexample :
    dispatch 0 [] (.array [.bulkString [80, 73, 78, 71]]) =
      ([], .error .unsupported) ∧
    ¬ dispatch 0 [] (.array [.bulkString [80, 73, 78, 71]]) =
      ([], .ok (.simpleString pongBytes)) :=
  ⟨rfl, fun h => by
    have h2 : dispatch 0 [] (.array [.bulkString [80, 73, 78, 71]]) =
      ([], .error .unsupported) := rfl
    rw [h2] at h
    simp at h⟩

/-- Claim C2 as amended: the dispatcher matches the command name and the
PX keyword case-sensitively against the exact lowercase byte literals:
the lowercase requests ping, echo, set, get and px are recognized, while
the uppercase spelling of PING and an uppercase PX keyword in a
five-element SET fall through to the unsupported-command exception. -/
theorem c2_case_sensitive_dispatch (now : ℚ) (st : Store) (k v ms : Bytes) :
    dispatch now st (.array [.bulkString pingBytes]) =
      (st, .ok (.simpleString pongBytes)) ∧
    dispatch now st (.array [.bulkString [80, 73, 78, 71]]) =
      (st, .error .unsupported) ∧
    dispatch now st (.array [.bulkString setBytes, .bulkString k, .bulkString v,
        .bulkString [80, 88], .bulkString ms]) =
      (st, .error .unsupported) := by
  refine ⟨?_, ?_, ?_⟩
  · rw [dispatch, if_pos rfl]
  · rw [dispatch, if_neg (by decide : ¬ ([80, 73, 78, 71] : Bytes) = pingBytes)]
  · rw [dispatch,
      if_neg (by simp [pxBytes] : ¬ (setBytes = setBytes ∧ ([80, 88] : Bytes) = pxBytes))]

/-- Claim C4 is corrected: the expiry comparison in the GET branch is
strict, so at the exact boundary instant where now equals expires_at the
entry is NOT removed and its value is still returned, contradicting the
claimed removal at now greater than or equal to expires_at. -/
theorem c4_boundary_counterexample :
    dispatch 5 [([107], ([118], some 5))]
      (.array [.bulkString getBytes, .bulkString [107]]) =
      ([([107], ([118], some 5))], .ok (.bulkString [118])) ∧
    ¬ dispatch 5 [([107], ([118], some 5))]
      (.array [.bulkString getBytes, .bulkString [107]]) =
      ([], .ok .nil) :=
  ⟨rfl, fun h => by
    have h2 : dispatch 5 [([107], ([118], some 5))]
      (.array [.bulkString getBytes, .bulkString [107]]) =
      ([([107], ([118], some 5))], .ok (.bulkString [118])) := rfl
    rw [h2] at h
    simp at h⟩

/-- Claim C4 as amended: GET on a key with no entry replies Nil; on an
entry whose expiry is set and STRICTLY in the past (now strictly greater
than expires_at) the entry is deleted and Nil is replied; otherwise,
including the boundary instant where now equals expires_at, the value is
replied and the store is unchanged. -/
theorem c4_get_lazy_expiry (now : ℚ) (st : Store) (k : Bytes) :
    dispatch now st (.array [.bulkString getBytes, .bulkString k]) =
      (match storeGet st k with
       | none => (st, .ok .nil)
       | some (v, some e) =>
         if now > e then (storeDel st k, .ok .nil) else (st, .ok (.bulkString v))
       | some (v, none) => (st, .ok (.bulkString v))) := by
  rw [dispatch, if_neg (by decide : ¬ getBytes = pingBytes),
    if_neg (by decide : ¬ getBytes = echoBytes), if_pos rfl]
  rcases hg : storeGet st k with _ | ⟨v, _ | e⟩ <;> simp

/-- Claim C5 is corrected: a five-element SET whose PX millisecond
argument is the literal minus five DOES succeed (Python int accepts the
negative literal and no sign check is performed): the reply is the
SimpleString OK, contradicting the claim that a negative ms is not
accepted as a successful SET. -/
theorem c5_negative_px_counterexample :
    pyInt [45, 53] = some (-5) ∧
    (dispatch 0 [] (.array [.bulkString setBytes, .bulkString [107],
        .bulkString [118], .bulkString pxBytes, .bulkString [45, 53]])).2 =
      .ok (.simpleString okBytes) :=
  ⟨rfl, rfl⟩

/-- Claim C5 as amended: for a five-element SET with the lowercase px
keyword, the millisecond argument must parse as a Python integer of ANY
sign; when it does, the entry is stored with expires_at equal to now
plus ms over one thousand seconds (so a negative ms yields an already
past expiry) and the reply is the SimpleString OK; a non-numeric ms
raises the ValueError from int before the store is touched. -/
theorem c5_set_px_parse (now : ℚ) (st : Store) (k v ms : Bytes) :
    dispatch now st (.array [.bulkString setBytes, .bulkString k, .bulkString v,
        .bulkString pxBytes, .bulkString ms]) =
      (match pyInt ms with
       | some n => (storeSet k (v, some (now + (n : ℚ) / 1000)) st,
           .ok (.simpleString okBytes))
       | none => (st, .error .badMs)) := by
  rw [dispatch, if_pos ⟨rfl, rfl⟩]
  cases pyInt ms <;> rfl

/-- Claim C8: overwriting a key with a plain three-element SET stores the
value with no expiry, regardless of any TTL previously attached by a SET
PX; a GET at any later instant therefore returns the new value and
leaves the store unchanged. -/
theorem c8_overwrite_clears_ttl (now1 now2 now3 : ℚ) (st : Store)
    (k v1 v2 ms : Bytes) :
    dispatch now3
        ((dispatch now2
          ((dispatch now1 st (.array [.bulkString setBytes, .bulkString k,
            .bulkString v1, .bulkString pxBytes, .bulkString ms])).1)
          (.array [.bulkString setBytes, .bulkString k, .bulkString v2])).1)
        (.array [.bulkString getBytes, .bulkString k]) =
      ((dispatch now2
          ((dispatch now1 st (.array [.bulkString setBytes, .bulkString k,
            .bulkString v1, .bulkString pxBytes, .bulkString ms])).1)
          (.array [.bulkString setBytes, .bulkString k, .bulkString v2])).1,
       .ok (.bulkString v2)) := by
  have hset : ∀ s : Store,
      (dispatch now2 s (.array [.bulkString setBytes, .bulkString k,
        .bulkString v2])).1 = storeSet k (v2, none) s := by
    intro s
    rw [dispatch, if_pos rfl]
  rw [hset]
  rw [dispatch, if_neg (by decide : ¬ getBytes = pingBytes),
    if_neg (by decide : ¬ getBytes = echoBytes), if_pos rfl]
  simp [storeGet, storeSet]

/-- Every error arm of the dispatch match leaves the store exactly as it
was: the int call of the PX branch is evaluated before the assignment,
and the unsupported-command arm performs no assignment. -/
theorem dispatch_error_store (now : ℚ) (st : Store) (req : RespValue)
    (st2 : Store) (e : DispatchErr)
    (h : dispatch now st req = (st2, .error e)) : st2 = st := by
  unfold dispatch at h
  repeat' split at h
  all_goals simp_all

/-- Claim C9: whenever one decode-dispatch cycle ends in an error (a
malformed input, a bad integer literal, or an unrecognized command
shape), the store after the cycle is exactly the store before it: no SET
is partially applied and no entry is touched by the failing step. -/
theorem c9_store_unchanged_on_error (now : ℚ) (st : Store) (input : Bytes)
    (e : StepErr) (h : (serverStep now st input).2 = .error e) :
    (serverStep now st input).1 = st := by
  cases hd : decodeValue input with
  | error e2 => simp [serverStep, hd]
  | ok p =>
    obtain ⟨v, rest⟩ := p
    rcases hdisp : dispatch now st v with ⟨st3, r⟩
    cases r with
    | ok reply =>
      exfalso
      simp [serverStep, hd, hdisp] at h
    | error e2 =>
      have hst := dispatch_error_store now st v st3 e2 hdisp
      simp [serverStep, hd, hdisp, hst]

/-- Witness for C9: a syntactically valid request carrying the uppercase
command PING is dispatched against a one-entry store, fails as
unsupported, and the store is untouched. -/
theorem c9_store_unchanged_on_error_witness :
    (serverStep 0 [([1], ([2], none))]
        [42, 49, 13, 10, 36, 52, 13, 10, 80, 73, 78, 71, 13, 10]).2 =
      .error (.dispatch .unsupported) ∧
    (serverStep 0 [([1], ([2], none))]
        [42, 49, 13, 10, 36, 52, 13, 10, 80, 73, 78, 71, 13, 10]).1 =
      [([1], ([2], none))] :=
  ⟨rfl, c9_store_unchanged_on_error 0 _ _ (.dispatch .unsupported) rfl⟩
